import Mathlib

/-!
Verification of the kill-attribution core (`KillTracker` in
`src/endstone_papi/kill_tracker.py`) of the endstone_papi plugin.

The Python class keeps three dictionaries keyed by player name:
`_kills : {name ↦ int}`, `_killstreaks : {name ↦ int}` and
`_last_damage : {victim_name ↦ (damager_name, timestamp)}`, plus a
configuration value `_combat_timeout : float` (default 10.0).

Embedding choices:
* Python dictionaries become association lists `List (Name × β)` together
  with `lookup`, `setKey` (dict assignment `d[k] = v`), `eraseKey`
  (`d.pop(k, None)` / `del d[k]`) and `dictContains` (`k in d`).
  Python dictionaries never hold a key twice; theorems that depend on
  this carry an explicit no-duplicate-keys hypothesis.
* `time.time()` values and the timeout are rationals `ℚ`; every method
  that reads the clock takes the current time as an extra argument.
* Python `int` is `Int` (it is signed), so non-negativity of the stored
  counters is a real invariant to prove, not a typing artifact.
* Methods that mutate `self` become `KillTracker → ... → KillTracker`;
  pure reads are transcribed in state-passing form (`*_run`, returning
  the result together with the state, mirroring the method body
  statement by statement) with the plain read as the first projection.
* The two methods whose bodies contain a fallible dictionary operation
  (`self._last_damage[victim_name]` indexing in `get_valid_killer`, and
  `del self._last_damage[v]` in `cleanup_old_damage_records`) also get a
  `*_checked` transcription in `Except String`, where raw indexing and
  `del` raise `KeyError` on an absent key exactly as in Python.
-/

abbrev Name := String

/-- Player identity as used by the tracker: only `player.name` is ever read. -/
structure Player where
  name : Name
deriving DecidableEq, Repr

/-- First value bound to key `k` in the association list, as in a Python dict lookup. -/
def lookup (k : Name) : List (Name × β) → Option β
  | [] => none
  | (k1, v) :: rest => if k1 = k then some v else lookup k rest

/-- Membership test, Python `k in d`. -/
def dictContains (d : List (Name × β)) (k : Name) : Bool :=
  (lookup k d).isSome

/-- Removal of every binding of `k`, Python `d.pop(k, None)` (value discarded) or `del d[k]`. -/
def eraseKey (k : Name) : List (Name × β) → List (Name × β)
  | [] => []
  | (k1, v) :: rest => if k1 = k then eraseKey k rest else (k1, v) :: eraseKey k rest

/-- Dictionary assignment `d[k] = v`: `k` becomes bound to `v`, all other keys keep their values. -/
def setKey (k : Name) (v : β) (d : List (Name × β)) : List (Name × β) :=
  (k, v) :: eraseKey k d

/-- Python raw indexing `d[k]`: the value, or a `KeyError` when the key is absent. -/
def dictIndex (d : List (Name × β)) (k : Name) : Except String β :=
  match lookup k d with
  | some v => Except.ok v
  | none => Except.error "KeyError"

/-- Python `del d[k]`: removes the binding, `KeyError` when the key is absent. -/
def dictDel (d : List (Name × β)) (k : Name) : Except String (List (Name × β)) :=
  if dictContains d k then Except.ok (eraseKey k d) else Except.error "KeyError"

/-- State of the Python `KillTracker` object: the three dictionaries and the timeout. -/
structure KillTracker where
  kills : List (Name × Int)
  killstreaks : List (Name × Int)
  last_damage : List (Name × (Name × ℚ))
  combat_timeout : ℚ
deriving Repr

/-- The `__init__` method: three empty dictionaries and the configured timeout. -/
def KillTracker.mk_tracker (combat_timeout : ℚ := 10) : KillTracker :=
  { kills := [], killstreaks := [], last_damage := [], combat_timeout := combat_timeout }

/-- Method `record_damage(victim, damager)`: `self._last_damage[victim.name] = (damager.name, time.time())`. -/
def record_damage (t : KillTracker) (victim damager : Player) (now : ℚ) : KillTracker :=
  { t with last_damage := setKey victim.name (damager.name, now) t.last_damage }

/-- Body of `get_valid_killer(victim)` in state-passing form: absent record gives `None`;
otherwise the recorded damager when `time.time() - damage_time <= self._combat_timeout`. -/
def get_valid_killer_run (t : KillTracker) (victim : Player) (now : ℚ) :
    Option Name × KillTracker :=
  let victim_name := victim.name
  match lookup victim_name t.last_damage with
  | none => (none, t)
  | some (damager_name, damage_time) =>
    let time_elapsed := now - damage_time
    if time_elapsed ≤ t.combat_timeout then (some damager_name, t) else (none, t)

/-- Result of `get_valid_killer(victim)`. -/
def get_valid_killer (t : KillTracker) (victim : Player) (now : ℚ) : Option Name :=
  (get_valid_killer_run t victim now).1

/-- Transcription of `get_valid_killer` in `Except`, keeping the raw dictionary
indexing `self._last_damage[victim_name]` as a fallible operation. -/
def get_valid_killer_checked (t : KillTracker) (victim : Player) (now : ℚ) :
    Except String (Option Name) :=
  let victim_name := victim.name
  if ¬ dictContains t.last_damage victim_name then Except.ok none
  else
    match dictIndex t.last_damage victim_name with
    | Except.error e => Except.error e
    | Except.ok (damager_name, damage_time) =>
      let time_elapsed := now - damage_time
      if time_elapsed ≤ t.combat_timeout then Except.ok (some damager_name)
      else Except.ok none

/-- Method `add_kill(player)`: `self._kills[n] = self._kills.get(n, 0) + 1` and the same for
`self._killstreaks`. -/
def add_kill (t : KillTracker) (player : Player) : KillTracker :=
  { t with
    kills := setKey player.name ((lookup player.name t.kills).getD 0 + 1) t.kills,
    killstreaks :=
      setKey player.name ((lookup player.name t.killstreaks).getD 0 + 1) t.killstreaks }

/-- Method `reset_killstreak(player)`: `self._killstreaks[n] = 0` then
`self._last_damage.pop(n, None)`. -/
def reset_killstreak (t : KillTracker) (player : Player) : KillTracker :=
  { t with
    killstreaks := setKey player.name 0 t.killstreaks,
    last_damage := eraseKey player.name t.last_damage }

/-- Body of `get_kills(player)` in state-passing form: `self._kills.get(player.name, 0)`. -/
def get_kills_run (t : KillTracker) (player : Player) : Int × KillTracker :=
  ((lookup player.name t.kills).getD 0, t)

/-- Result of `get_kills(player)`. -/
def get_kills (t : KillTracker) (player : Player) : Int :=
  (get_kills_run t player).1

/-- Body of `get_killstreak(player)` in state-passing form:
`self._killstreaks.get(player.name, 0)`. -/
def get_killstreak_run (t : KillTracker) (player : Player) : Int × KillTracker :=
  ((lookup player.name t.killstreaks).getD 0, t)

/-- Result of `get_killstreak(player)`. -/
def get_killstreak (t : KillTracker) (player : Player) : Int :=
  (get_killstreak_run t player).1

/-- Method `clear_player_data(player_name)`: `pop(player_name, None)` on all three dictionaries. -/
def clear_player_data (t : KillTracker) (player_name : Name) : KillTracker :=
  { t with
    kills := eraseKey player_name t.kills,
    killstreaks := eraseKey player_name t.killstreaks,
    last_damage := eraseKey player_name t.last_damage }

/-- The list comprehension in `cleanup_old_damage_records`: victims whose record
satisfies `current_time - damage_time > self._combat_timeout`. -/
def expired_victims (t : KillTracker) (now : ℚ) : List Name :=
  (t.last_damage.filter (fun p => decide (now - p.2.2 > t.combat_timeout))).map Prod.fst

/-- Method `cleanup_old_damage_records()`: compute `expired_victims`, then
`del self._last_damage[victim_name]` for each of them. -/
def cleanup_old_damage_records (t : KillTracker) (now : ℚ) : KillTracker :=
  { t with
    last_damage := (expired_victims t now).foldl (fun d v => eraseKey v d) t.last_damage }

/-- Transcription of `cleanup_old_damage_records` in `Except`, keeping each
`del self._last_damage[victim_name]` as a fallible operation. -/
def cleanup_checked (t : KillTracker) (now : ℚ) : Except String KillTracker :=
  match (expired_victims t now).foldlM (fun d v => dictDel d v) t.last_damage with
  | Except.error e => Except.error e
  | Except.ok d => Except.ok { t with last_damage := d }

/-- Keys of an association list. -/
def keysOf (d : List (Name × β)) : List Name :=
  d.map Prod.fst

/-- Well-formedness carried by every Python dict: no key is bound twice. -/
def NodupKeys (d : List (Name × β)) : Prop :=
  (keysOf d).Nodup

/-! ### Dictionary lemmas -/

theorem lookup_eraseKey (k q : Name) (d : List (Name × β)) :
    lookup q (eraseKey k d) = if q = k then none else lookup q d := by
  induction d with
  | nil => simp [eraseKey, lookup]
  | cons p rest ih =>
    obtain ⟨k1, v⟩ := p
    rw [eraseKey]
    by_cases h1 : k1 = k
    · rw [if_pos h1, ih]
      by_cases h2 : q = k
      · rw [if_pos h2, if_pos h2]
      · rw [if_neg h2, if_neg h2, lookup, if_neg (fun h => h2 (h.symm.trans h1))]
    · rw [if_neg h1, lookup]
      by_cases h2 : k1 = q
      · rw [if_pos h2, if_neg (fun h => h1 (h2.trans h)), lookup, if_pos h2]
      · rw [if_neg h2, ih]
        by_cases h3 : q = k
        · rw [if_pos h3, if_pos h3]
        · rw [if_neg h3, if_neg h3, lookup, if_neg h2]

theorem lookup_setKey (k q : Name) (v : β) (d : List (Name × β)) :
    lookup q (setKey k v d) = if q = k then some v else lookup q d := by
  rw [setKey, lookup]
  by_cases h : k = q
  · rw [if_pos h, if_pos h.symm]
  · have hqk : ¬ q = k := fun h2 => h h2.symm
    rw [if_neg h, lookup_eraseKey, if_neg hqk, if_neg hqk]

theorem mem_eraseKey (k : Name) (p : Name × β) (d : List (Name × β)) :
    p ∈ eraseKey k d → p ∈ d := by
  induction d with
  | nil => simp [eraseKey]
  | cons q rest ih =>
    obtain ⟨k1, v⟩ := q
    rw [eraseKey]
    by_cases h1 : k1 = k
    · rw [if_pos h1]
      intro h
      exact List.mem_cons_of_mem _ (ih h)
    · rw [if_neg h1]
      intro h
      rcases List.mem_cons.mp h with h | h
      · exact List.mem_cons.mpr (Or.inl h)
      · exact List.mem_cons_of_mem _ (ih h)

theorem lookup_mem (k : Name) (v : β) (d : List (Name × β)) :
    lookup k d = some v → (k, v) ∈ d := by
  induction d with
  | nil => simp [lookup]
  | cons p rest ih =>
    obtain ⟨k1, w⟩ := p
    rw [lookup]
    by_cases h1 : k1 = k
    · rw [if_pos h1]
      intro h
      exact List.mem_cons.mpr (Or.inl (by rw [h1, Option.some.injEq] at *; rw [h]))
    · rw [if_neg h1]
      intro h
      exact List.mem_cons_of_mem _ (ih h)

/-! ### Behaviour of the individual methods -/

theorem get_valid_killer_eq (t : KillTracker) (v : Player) (now : ℚ) :
    get_valid_killer t v now =
      match lookup v.name t.last_damage with
      | none => none
      | some (a, ts) => if now - ts ≤ t.combat_timeout then some a else none := by
  rw [get_valid_killer, get_valid_killer_run]
  cases h : lookup v.name t.last_damage with
  | none => rfl
  | some p =>
    obtain ⟨a, ts⟩ := p
    by_cases hc : now - ts ≤ t.combat_timeout <;> simp [hc]

theorem get_valid_killer_of_lookup_none (t : KillTracker) (v : Player) (now : ℚ)
    (h : lookup v.name t.last_damage = none) :
    get_valid_killer t v now = none := by
  simp [get_valid_killer, get_valid_killer_run, h]

theorem get_valid_killer_of_lookup_some (t : KillTracker) (v : Player) (now : ℚ)
    (a : Name) (ts : ℚ) (h : lookup v.name t.last_damage = some (a, ts)) :
    get_valid_killer t v now =
      if now - ts ≤ t.combat_timeout then some a else none := by
  by_cases hc : now - ts ≤ t.combat_timeout <;>
    simp [get_valid_killer, get_valid_killer_run, h, hc]

theorem get_valid_killer_record_damage (t : KillTracker) (v a : Player) (s now : ℚ) :
    get_valid_killer (record_damage t v a s) v now =
      if now - s ≤ t.combat_timeout then some a.name else none := by
  have hl : lookup v.name (record_damage t v a s).last_damage = some (a.name, s) := by
    rw [record_damage]
    simp [lookup_setKey]
  rw [get_valid_killer_of_lookup_some _ v now a.name s hl]
  rfl

/-- C1: `get_valid_killer(V)` returns the attacker recorded in the damage record of V
iff the record exists and `now - record.timestamp ≤ combat_timeout`, with the
boundary included: a query at exactly `t + timeout` after `record_damage(V, A)`
at time `t` still returns A; in every other case it returns `none`. -/
theorem get_valid_killer_window_spec (t : KillTracker) (v : Player) (now : ℚ) :
    (∀ a : Name, get_valid_killer t v now = some a ↔
      ∃ ts : ℚ, lookup v.name t.last_damage = some (a, ts) ∧
        now - ts ≤ t.combat_timeout) ∧
    (∀ (a : Player) (s : ℚ),
      get_valid_killer (record_damage t v a s) v (s + t.combat_timeout) = some a.name) := by
  constructor
  · intro a
    cases h : lookup v.name t.last_damage with
    | none =>
      rw [get_valid_killer_of_lookup_none t v now h]
      constructor
      · intro he
        exact Option.noConfusion he
      · rintro ⟨ts2, he, hle⟩
        exact Option.noConfusion he
    | some p =>
      obtain ⟨a1, ts⟩ := p
      rw [get_valid_killer_of_lookup_some t v now a1 ts h]
      by_cases hc : now - ts ≤ t.combat_timeout
      · rw [if_pos hc]
        constructor
        · intro he
          exact ⟨ts, by rw [Option.some.inj he], hc⟩
        · rintro ⟨ts2, he, hle⟩
          exact congrArg some (congrArg Prod.fst (Option.some.inj he))
      · rw [if_neg hc]
        constructor
        · intro he
          exact Option.noConfusion he
        · rintro ⟨ts2, he, hle⟩
          have h2 : ts = ts2 := congrArg Prod.snd (Option.some.inj he)
          rw [← h2] at hle
          exact absurd hle hc
  · intro a s
    rw [get_valid_killer_record_damage, if_pos (by linarith)]

/-- C1 witness: a concrete tracker with a record for V at time 0 and timeout 10,
queried exactly at the boundary time 10. -/
theorem get_valid_killer_window_spec_witness :
    get_valid_killer
      { kills := [], killstreaks := [], last_damage := [("V", ("A", 0))],
        combat_timeout := 10 } ⟨"V"⟩ 10 = some "A" :=
  ((get_valid_killer_window_spec
      { kills := [], killstreaks := [], last_damage := [("V", ("A", 0))],
        combat_timeout := 10 } ⟨"V"⟩ 10).1 "A").mpr
    ⟨0, rfl, by norm_num⟩

/-- C3: a later `record_damage(V, B)` unconditionally overwrites the single
damage record, so every subsequent `get_valid_killer(V)` returns B (or `none`
once expired) and, for distinct attacker names, never A. -/
theorem record_damage_last_hit (t : KillTracker) (v a b : Player) (s1 s2 : ℚ) :
    lookup v.name (record_damage (record_damage t v a s1) v b s2).last_damage =
      some (b.name, s2) ∧
    (∀ now : ℚ, get_valid_killer (record_damage (record_damage t v a s1) v b s2) v now =
      if now - s2 ≤ t.combat_timeout then some b.name else none) ∧
    (a.name ≠ b.name → ∀ now : ℚ,
      get_valid_killer (record_damage (record_damage t v a s1) v b s2) v now ≠
        some a.name) := by
  refine ⟨?_, ?_, ?_⟩
  · rw [record_damage, record_damage]
    simp [lookup_setKey]
  · intro now
    rw [get_valid_killer_record_damage]
    rfl
  · intro hne now
    rw [get_valid_killer_record_damage]
    by_cases hc : now - s2 ≤ (record_damage t v a s1).combat_timeout
    · rw [if_pos hc]
      intro he
      exact hne (Option.some.inj he).symm
    · rw [if_neg hc]
      intro he
      exact Option.noConfusion he

/-- C3 witness: two concrete damage records on the same victim; the second
attacker name B wins and the first attacker name A is never returned. -/
theorem record_damage_last_hit_witness :
    ("A" : Name) ≠ "B" ∧
    get_valid_killer
      (record_damage (record_damage (KillTracker.mk_tracker 10) ⟨"V"⟩ ⟨"A"⟩ 0)
        ⟨"V"⟩ ⟨"B"⟩ 1) ⟨"V"⟩ 2 ≠ some "A" :=
  ⟨by decide,
    (record_damage_last_hit (KillTracker.mk_tracker 10) ⟨"V"⟩ ⟨"A"⟩ ⟨"B"⟩ 0 1).2.2
      (by decide) 2⟩

/-- C4: `reset_killstreak(P)` sets the killstreak entry of P to 0 (creating it if
absent), leaves every kill count unchanged, and removes the damage record of P, so
any subsequent `get_valid_killer(P)` returns `none`. -/
theorem reset_killstreak_spec (t : KillTracker) (p : Player) :
    get_killstreak (reset_killstreak t p) p = 0 ∧
    lookup p.name (reset_killstreak t p).killstreaks = some 0 ∧
    (∀ q : Player, get_kills (reset_killstreak t p) q = get_kills t q) ∧
    lookup p.name (reset_killstreak t p).last_damage = none ∧
    (∀ now : ℚ, get_valid_killer (reset_killstreak t p) p now = none) := by
  refine ⟨?_, ?_, ?_, ?_, ?_⟩
  · simp [get_killstreak, get_killstreak_run, reset_killstreak, lookup_setKey]
  · simp [reset_killstreak, lookup_setKey]
  · intro q; rfl
  · simp [reset_killstreak, lookup_eraseKey]
  · intro now
    rw [get_valid_killer_eq]
    simp [reset_killstreak, lookup_eraseKey]

/-- C8: the three read methods return the tracker state unchanged: their
state-passing transcriptions give back exactly the input state, so in
particular `get_valid_killer` does not delete an expired record. -/
theorem read_ops_pure (t : KillTracker) (v p q : Player) (now : ℚ) :
    (get_valid_killer_run t v now).2 = t ∧
    (get_kills_run t p).2 = t ∧
    (get_killstreak_run t q).2 = t := by
  refine ⟨?_, rfl, rfl⟩
  rw [get_valid_killer_run]
  cases h : lookup v.name t.last_damage with
  | none => rfl
  | some r =>
    obtain ⟨a, ts⟩ := r
    by_cases hc : now - ts ≤ t.combat_timeout <;> simp [hc]

theorem add_kill_counts (t : KillTracker) (p : Player) :
    get_kills (add_kill t p) p = get_kills t p + 1 ∧
    get_killstreak (add_kill t p) p = get_killstreak t p + 1 := by
  constructor <;>
    simp [get_kills, get_kills_run, get_killstreak, get_killstreak_run, add_kill,
      lookup_setKey]

theorem add_kill_iterate (t : KillTracker) (p : Player) (n : ℕ) :
    get_kills ((fun s => add_kill s p)^[n] t) p = get_kills t p + n ∧
    get_killstreak ((fun s => add_kill s p)^[n] t) p = get_killstreak t p + n := by
  induction n with
  | zero => simp
  | succ n ih =>
    rw [Function.iterate_succ_apply']
    obtain ⟨ih1, ih2⟩ := ih
    have h := add_kill_counts ((fun s => add_kill s p)^[n] t) p
    constructor
    · rw [h.1, ih1]
      push_cast
      ring
    · rw [h.2, ih2]
      push_cast
      ring

/-- C5: `add_kill(P)` increments the kill count and killstreak of P by exactly 1,
leaves the counters of every other player and all damage records unchanged, and N
consecutive calls from a state where P is unknown yield count and streak N. -/
theorem add_kill_spec (t : KillTracker) (p : Player) :
    get_kills (add_kill t p) p = get_kills t p + 1 ∧
    get_killstreak (add_kill t p) p = get_killstreak t p + 1 ∧
    (∀ q : Player, q.name ≠ p.name →
      get_kills (add_kill t p) q = get_kills t q ∧
      get_killstreak (add_kill t p) q = get_killstreak t q) ∧
    (add_kill t p).last_damage = t.last_damage ∧
    (get_kills t p = 0 → get_killstreak t p = 0 → ∀ n : ℕ,
      get_kills ((fun s => add_kill s p)^[n] t) p = n ∧
      get_killstreak ((fun s => add_kill s p)^[n] t) p = n) := by
  refine ⟨(add_kill_counts t p).1, (add_kill_counts t p).2, ?_, rfl, ?_⟩
  · intro q hq
    constructor <;>
      simp [get_kills, get_kills_run, get_killstreak, get_killstreak_run, add_kill,
        lookup_setKey, hq]
  · intro h1 h2 n
    have h := add_kill_iterate t p n
    exact ⟨by rw [h.1, h1, zero_add], by rw [h.2, h2, zero_add]⟩

/-- C5 witness: on a fresh tracker, one kill for A leaves the counters of B at 0,
and two iterated kills give A a count of 2. -/
theorem add_kill_spec_witness :
    (("B" : Name) ≠ "A" ∧ get_kills (KillTracker.mk_tracker 10) ⟨"A"⟩ = 0 ∧
      get_killstreak (KillTracker.mk_tracker 10) ⟨"A"⟩ = 0) ∧
    get_kills (add_kill (KillTracker.mk_tracker 10) ⟨"A"⟩) ⟨"B"⟩ =
      get_kills (KillTracker.mk_tracker 10) ⟨"B"⟩ ∧
    get_kills ((fun s => add_kill s (⟨"A"⟩ : Player))^[2] (KillTracker.mk_tracker 10))
      ⟨"A"⟩ = ((2 : ℕ) : Int) :=
  ⟨⟨by decide, rfl, rfl⟩,
    ((add_kill_spec (KillTracker.mk_tracker 10) ⟨"A"⟩).2.2.1 ⟨"B"⟩ (by decide)).1,
    (((add_kill_spec (KillTracker.mk_tracker 10) ⟨"A"⟩).2.2.2.2 rfl rfl) 2).1⟩

/-- C2 counterexample: with the damage record of V naming P as the attacker,
`clear_player_data(P)` leaves that record in place, so P still appears in a
damage record in the attacker role and `get_valid_killer(V)` still returns P
although P dealt no new damage after the clear. -/
theorem clear_player_data_attacker_cex :
    lookup "V" (clear_player_data
      { kills := [], killstreaks := [], last_damage := [("V", ("P", 0))],
        combat_timeout := 10 } "P").last_damage = some ("P", 0) ∧
    get_valid_killer (clear_player_data
      { kills := [], killstreaks := [], last_damage := [("V", ("P", 0))],
        combat_timeout := 10 } "P") ⟨"V"⟩ 0 = some "P" := by
  refine ⟨rfl, ?_⟩
  rw [get_valid_killer_of_lookup_some
    (clear_player_data
      { kills := [], killstreaks := [], last_damage := [("V", ("P", 0))],
        combat_timeout := 10 } "P") ⟨"V"⟩ 0 "P" 0 rfl]
  norm_num [clear_player_data]

/-- C2 (amended): `clear_player_data(P)` zeroes the kill count and killstreak of P
and removes P as a victim key from the damage map, so `get_valid_killer(P)`
returns `none`; damage records of other victims are untouched, including those
that name P as the attacker. -/
theorem clear_player_data_spec (t : KillTracker) (p : Name) :
    get_kills (clear_player_data t p) ⟨p⟩ = 0 ∧
    get_killstreak (clear_player_data t p) ⟨p⟩ = 0 ∧
    lookup p (clear_player_data t p).last_damage = none ∧
    (∀ now : ℚ, get_valid_killer (clear_player_data t p) ⟨p⟩ now = none) ∧
    (∀ v : Name, v ≠ p →
      lookup v (clear_player_data t p).last_damage = lookup v t.last_damage) := by
  refine ⟨?_, ?_, ?_, ?_, ?_⟩
  · simp [get_kills, get_kills_run, clear_player_data, lookup_eraseKey]
  · simp [get_killstreak, get_killstreak_run, clear_player_data, lookup_eraseKey]
  · simp [clear_player_data, lookup_eraseKey]
  · intro now
    exact get_valid_killer_of_lookup_none _ ⟨p⟩ now
      (by simp [clear_player_data, lookup_eraseKey])
  · intro v hv
    simp [clear_player_data, lookup_eraseKey, hv]

/-- C2 amended-claim witness: clearing P preserves the record of a victim V
distinct from P. -/
theorem clear_player_data_spec_witness :
    ("V" : Name) ≠ "P" ∧
    lookup "V" (clear_player_data
      { kills := [], killstreaks := [], last_damage := [("V", ("P", 0))],
        combat_timeout := 10 } "P").last_damage =
      lookup "V" (KillTracker.last_damage
        { kills := [], killstreaks := [], last_damage := [("V", ("P", 0))],
          combat_timeout := 10 }) :=
  ⟨by decide,
    (clear_player_data_spec
      { kills := [], killstreaks := [], last_damage := [("V", ("P", 0))],
        combat_timeout := 10 } "P").2.2.2.2 "V" (by decide)⟩

/-! ### Cleanup machinery -/

theorem lookup_foldl_eraseKey (vs : List Name) (d : List (Name × β)) (q : Name) :
    lookup q (vs.foldl (fun d2 v => eraseKey v d2) d) =
      if q ∈ vs then none else lookup q d := by
  induction vs generalizing d with
  | nil => simp
  | cons v vs ih =>
    rw [List.foldl_cons, ih]
    by_cases h1 : q ∈ vs
    · rw [if_pos h1, if_pos (List.mem_cons.mpr (Or.inr h1))]
    · rw [if_neg h1, lookup_eraseKey]
      by_cases h2 : q = v
      · rw [if_pos h2, if_pos (List.mem_cons.mpr (Or.inl h2))]
      · rw [if_neg h2, if_neg (by simp [h1, h2])]

theorem mem_eraseKey_ne (k : Name) (p : Name × β) (d : List (Name × β)) :
    p ∈ eraseKey k d → p.1 ≠ k := by
  induction d with
  | nil => simp [eraseKey]
  | cons q rest ih =>
    obtain ⟨k1, v⟩ := q
    rw [eraseKey]
    by_cases h1 : k1 = k
    · rw [if_pos h1]
      exact ih
    · rw [if_neg h1]
      intro h
      rcases List.mem_cons.mp h with h2 | h2
      · rw [h2]
        exact h1
      · exact ih h2

theorem mem_foldl_eraseKey (vs : List Name) (p : Name × β) (d : List (Name × β)) :
    p ∈ vs.foldl (fun d2 v => eraseKey v d2) d → p ∈ d ∧ p.1 ∉ vs := by
  induction vs generalizing d with
  | nil =>
    intro h
    exact ⟨h, by simp⟩
  | cons v vs ih =>
    rw [List.foldl_cons]
    intro h
    obtain ⟨h1, h2⟩ := ih (eraseKey v d) h
    refine ⟨mem_eraseKey v p d h1, ?_⟩
    intro hmem
    rcases List.mem_cons.mp hmem with h3 | h3
    · exact mem_eraseKey_ne v p d h1 h3
    · exact h2 h3

theorem lookup_of_mem_nodup (d : List (Name × β)) (k : Name) (v : β)
    (hnd : NodupKeys d) (hmem : (k, v) ∈ d) : lookup k d = some v := by
  induction d with
  | nil => cases hmem
  | cons p rest ih =>
    obtain ⟨k1, w⟩ := p
    rw [NodupKeys, keysOf, List.map_cons, List.nodup_cons] at hnd
    rw [lookup]
    rcases List.mem_cons.mp hmem with h | h
    · cases h
      rw [if_pos rfl]
    · by_cases h1 : k1 = k
      · exfalso
        apply hnd.1
        rw [h1]
        exact List.mem_map.mpr ⟨(k, v), h, rfl⟩
      · rw [if_neg h1]
        exact ih (hnd.2) h

theorem mem_expired_victims (t : KillTracker) (now : ℚ) (q : Name) :
    q ∈ expired_victims t now ↔
      ∃ r : Name × ℚ, (q, r) ∈ t.last_damage ∧ now - r.2 > t.combat_timeout := by
  rw [expired_victims]
  constructor
  · intro h
    obtain ⟨p, hp, hq⟩ := List.mem_map.mp h
    obtain ⟨hpd, hpred⟩ := List.mem_filter.mp hp
    refine ⟨p.2, ?_, of_decide_eq_true hpred⟩
    rw [← hq]
    exact hpd
  · rintro ⟨r, hmem, hgt⟩
    exact List.mem_map.mpr ⟨(q, r), List.mem_filter.mpr ⟨hmem, decide_eq_true hgt⟩, rfl⟩

theorem lookup_cleanup (t : KillTracker) (now : ℚ) (q : Name) :
    lookup q (cleanup_old_damage_records t now).last_damage =
      if q ∈ expired_victims t now then none else lookup q t.last_damage :=
  lookup_foldl_eraseKey (expired_victims t now) t.last_damage q

theorem expired_victims_cleanup (t : KillTracker) (now : ℚ) :
    expired_victims (cleanup_old_damage_records t now) now = [] := by
  rw [expired_victims, List.map_eq_nil_iff, List.filter_eq_nil_iff]
  intro p hp
  simp only [decide_eq_true_eq, not_lt]
  obtain ⟨hpd, hpne⟩ := mem_foldl_eraseKey (expired_victims t now) p t.last_damage hp
  by_contra hcon
  rw [not_le] at hcon
  exact hpne ((mem_expired_victims t now p.1).mpr ⟨p.2, hpd, hcon⟩)

/-- C6: with distinct victim keys (as in a Python dict), the cleanup sweep
removes exactly the records whose age strictly exceeds `combat_timeout`,
keeps every fresher record, and a second sweep at the same time is the
identity on the already-swept state. -/
theorem cleanup_exact_spec (t : KillTracker) (now : ℚ) (h : NodupKeys t.last_damage) :
    (∀ (q a : Name) (ts : ℚ), lookup q t.last_damage = some (a, ts) →
      lookup q (cleanup_old_damage_records t now).last_damage =
        if now - ts > t.combat_timeout then none else some (a, ts)) ∧
    (∀ q : Name, lookup q t.last_damage = none →
      lookup q (cleanup_old_damage_records t now).last_damage = none) ∧
    cleanup_old_damage_records (cleanup_old_damage_records t now) now =
      cleanup_old_damage_records t now := by
  refine ⟨?_, ?_, ?_⟩
  · intro q a ts hl
    rw [lookup_cleanup]
    by_cases hm : q ∈ expired_victims t now
    · obtain ⟨r, hrmem, hrgt⟩ := (mem_expired_victims t now q).mp hm
      have hr : some (a, ts) = some r := by
        rw [← hl]
        exact lookup_of_mem_nodup t.last_damage q r h hrmem
      have hts : ts = r.2 := congrArg Prod.snd (Option.some.inj hr)
      rw [if_pos hm, if_pos (by rw [hts]; exact hrgt)]
    · rw [if_neg hm, hl, if_neg ?_]
      intro hgt
      exact hm ((mem_expired_victims t now q).mpr ⟨(a, ts), lookup_mem q (a, ts) t.last_damage hl, hgt⟩)
  · intro q hl
    rw [lookup_cleanup]
    by_cases hm : q ∈ expired_victims t now
    · rw [if_pos hm]
    · rw [if_neg hm, hl]
  · have h2 : cleanup_old_damage_records (cleanup_old_damage_records t now) now =
        { cleanup_old_damage_records t now with
          last_damage :=
            (expired_victims (cleanup_old_damage_records t now) now).foldl
              (fun d2 v => eraseKey v d2)
              (cleanup_old_damage_records t now).last_damage } := rfl
    rw [h2, expired_victims_cleanup]
    rfl

/-- C6 witness: at time 20 with timeout 10, the record from time 0 is removed
while the record from time 15 survives, and the sweep is idempotent. -/
theorem cleanup_exact_spec_witness :
    NodupKeys (KillTracker.last_damage
      { kills := [], killstreaks := [], last_damage := [("V", ("A", 0)), ("W", ("B", 15))],
        combat_timeout := 10 }) ∧
    lookup "V" (cleanup_old_damage_records
      { kills := [], killstreaks := [], last_damage := [("V", ("A", 0)), ("W", ("B", 15))],
        combat_timeout := 10 } 20).last_damage =
      (if (20 : ℚ) - 0 > 10 then none else some ("A", 0)) :=
  ⟨by unfold NodupKeys keysOf; decide,
    (cleanup_exact_spec
      { kills := [], killstreaks := [], last_damage := [("V", ("A", 0)), ("W", ("B", 15))],
        combat_timeout := 10 } 20 (by unfold NodupKeys keysOf; decide)).1 "V" "A" 0 rfl⟩

/-- C7: running the sweep never changes attribution at any query time not
earlier than the sweep time, and never changes any kill count or killstreak. -/
theorem cleanup_attribution_frame (t : KillTracker) (now now2 : ℚ)
    (h : NodupKeys t.last_damage) (hle : now ≤ now2) :
    (cleanup_old_damage_records t now).kills = t.kills ∧
    (cleanup_old_damage_records t now).killstreaks = t.killstreaks ∧
    (∀ v : Player, get_valid_killer (cleanup_old_damage_records t now) v now2 =
      get_valid_killer t v now2) := by
  refine ⟨rfl, rfl, ?_⟩
  intro v
  have hcl := lookup_cleanup t now v.name
  cases hl : lookup v.name t.last_damage with
  | none =>
    have h2 : lookup v.name (cleanup_old_damage_records t now).last_damage = none := by
      rw [hcl, hl]
      by_cases hm : v.name ∈ expired_victims t now
      · rw [if_pos hm]
      · rw [if_neg hm]
    rw [get_valid_killer_of_lookup_none _ v now2 h2,
      get_valid_killer_of_lookup_none t v now2 hl]
  | some r =>
    obtain ⟨a, ts⟩ := r
    rw [get_valid_killer_of_lookup_some t v now2 a ts hl]
    by_cases hm : v.name ∈ expired_victims t now
    · have h2 : lookup v.name (cleanup_old_damage_records t now).last_damage = none := by
        rw [hcl, if_pos hm]
      rw [get_valid_killer_of_lookup_none _ v now2 h2]
      obtain ⟨r2, hr2mem, hr2gt⟩ := (mem_expired_victims t now v.name).mp hm
      have hr2 : some (a, ts) = some r2 := by
        rw [← hl]
        exact lookup_of_mem_nodup t.last_damage v.name r2 h hr2mem
      have hts : ts = r2.2 := congrArg Prod.snd (Option.some.inj hr2)
      rw [if_neg ?_]
      rw [hts]
      intro hcon
      linarith
    · have h2 : lookup v.name (cleanup_old_damage_records t now).last_damage =
          some (a, ts) := by
        rw [hcl, if_neg hm, hl]
      rw [get_valid_killer_of_lookup_some _ v now2 a ts h2]
      rfl

/-- C7 witness: sweeping at time 20 does not change the answer of a query at
time 20 on a tracker holding one stale and one fresh record. -/
theorem cleanup_attribution_frame_witness :
    NodupKeys (KillTracker.last_damage
      { kills := [], killstreaks := [], last_damage := [("V", ("A", 0)), ("W", ("B", 15))],
        combat_timeout := 10 }) ∧
    (20 : ℚ) ≤ 20 ∧
    get_valid_killer (cleanup_old_damage_records
      { kills := [], killstreaks := [], last_damage := [("V", ("A", 0)), ("W", ("B", 15))],
        combat_timeout := 10 } 20) ⟨"W"⟩ 20 =
      get_valid_killer
        { kills := [], killstreaks := [], last_damage := [("V", ("A", 0)), ("W", ("B", 15))],
          combat_timeout := 10 } ⟨"W"⟩ 20 :=
  ⟨by unfold NodupKeys keysOf; decide, le_refl 20,
    (cleanup_attribution_frame
      { kills := [], killstreaks := [], last_damage := [("V", ("A", 0)), ("W", ("B", 15))],
        combat_timeout := 10 } 20 20 (by unfold NodupKeys keysOf; decide)
      (le_refl 20)).2.2 ⟨"W"⟩⟩

/-! ### Unknown identities and error-freedom -/

theorem eraseKey_of_lookup_none (k : Name) (d : List (Name × β))
    (h : lookup k d = none) : eraseKey k d = d := by
  induction d with
  | nil => rfl
  | cons p rest ih =>
    obtain ⟨k1, v⟩ := p
    rw [lookup] at h
    by_cases h1 : k1 = k
    · rw [if_pos h1] at h
      exact Option.noConfusion h
    · rw [if_neg h1] at h
      rw [eraseKey, if_neg h1, ih h]

theorem lookup_isSome_of_mem (k : Name) (x : β) (d : List (Name × β))
    (h : (k, x) ∈ d) : (lookup k d).isSome = true := by
  induction d with
  | nil => cases h
  | cons p rest ih =>
    obtain ⟨k1, v⟩ := p
    rw [lookup]
    by_cases h1 : k1 = k
    · rw [if_pos h1]
      rfl
    · rw [if_neg h1]
      rcases List.mem_cons.mp h with h2 | h2
      · exact absurd (congrArg Prod.fst h2).symm h1
      · exact ih h2

theorem nodup_expired_victims (t : KillTracker) (now : ℚ)
    (h : NodupKeys t.last_damage) : (expired_victims t now).Nodup := by
  rw [NodupKeys, keysOf] at h
  rw [expired_victims]
  exact List.Nodup.sublist
    ((List.filter_sublist _).map Prod.fst) h

theorem foldlM_dictDel_ok (vs : List Name) (d : List (Name × β))
    (hnd : vs.Nodup) (hmem : ∀ v ∈ vs, dictContains d v = true) :
    vs.foldlM (fun d2 v => dictDel d2 v) d =
      Except.ok (vs.foldl (fun d2 v => eraseKey v d2) d) := by
  induction vs generalizing d with
  | nil => rfl
  | cons v vs ih =>
    rw [List.foldlM_cons, List.foldl_cons]
    rw [dictDel, if_pos (hmem v (List.mem_cons_self v vs))]
    show vs.foldlM (fun d2 v2 => dictDel d2 v2) (eraseKey v d) = _
    refine ih (eraseKey v d) (List.nodup_cons.mp hnd).2 ?_
    intro w hw
    have hwv : ¬ w = v := fun he => (List.nodup_cons.mp hnd).1 (he ▸ hw)
    rw [dictContains, lookup_eraseKey, if_neg hwv]
    exact hmem w (List.mem_cons_of_mem v hw)

theorem cleanup_checked_ok (t : KillTracker) (now : ℚ) (h : NodupKeys t.last_damage) :
    cleanup_checked t now = Except.ok (cleanup_old_damage_records t now) := by
  have hm : ∀ v ∈ expired_victims t now, dictContains t.last_damage v = true := by
    intro v hv
    obtain ⟨r, hrmem, _⟩ := (mem_expired_victims t now v).mp hv
    exact lookup_isSome_of_mem v r t.last_damage hrmem
  rw [cleanup_checked,
    foldlM_dictDel_ok (expired_victims t now) t.last_damage
      (nodup_expired_victims t now h) hm]
  rfl

/-- C9: for an identity absent from all three dictionaries, every lookup
degrades to a safe default (0 kills, 0 streak, no killer) and no operation
raises: the fallible transcriptions of `get_valid_killer` and the cleanup
sweep return `ok`, and `reset_killstreak` / `clear_player_data` act as total
no-ops beyond their documented writes. -/
theorem unknown_identity_no_error (t : KillTracker) (p : Player) (now : ℚ)
    (hk : lookup p.name t.kills = none)
    (hs : lookup p.name t.killstreaks = none)
    (hd : lookup p.name t.last_damage = none)
    (hw : NodupKeys t.last_damage) :
    get_kills t p = 0 ∧
    get_killstreak t p = 0 ∧
    get_valid_killer t p now = none ∧
    get_valid_killer_checked t p now = Except.ok none ∧
    cleanup_checked t now = Except.ok (cleanup_old_damage_records t now) ∧
    (reset_killstreak t p).last_damage = t.last_damage ∧
    clear_player_data t p.name = t := by
  refine ⟨?_, ?_, get_valid_killer_of_lookup_none t p now hd, ?_,
    cleanup_checked_ok t now hw, ?_, ?_⟩
  · simp [get_kills, get_kills_run, hk]
  · simp [get_killstreak, get_killstreak_run, hs]
  · simp [get_valid_killer_checked, dictContains, hd]
  · show eraseKey p.name t.last_damage = t.last_damage
    exact eraseKey_of_lookup_none p.name t.last_damage hd
  · rw [clear_player_data, eraseKey_of_lookup_none p.name t.kills hk,
      eraseKey_of_lookup_none p.name t.killstreaks hs,
      eraseKey_of_lookup_none p.name t.last_damage hd]

/-- Concrete tracker used by witnesses: one known player A and one victim W. -/
def sampleTracker : KillTracker :=
  { kills := [("A", 1)], killstreaks := [("A", 2)],
    last_damage := [("W", ("A", 0))], combat_timeout := 10 }

/-- C9 witness: the identity B is unknown to `sampleTracker` and every
operation on it completes with its safe default. -/
theorem unknown_identity_no_error_witness :
    (lookup "B" sampleTracker.kills = none ∧
      lookup "B" sampleTracker.killstreaks = none ∧
      lookup "B" sampleTracker.last_damage = none ∧
      NodupKeys sampleTracker.last_damage) ∧
    (get_kills sampleTracker ⟨"B"⟩ = 0 ∧
      get_killstreak sampleTracker ⟨"B"⟩ = 0 ∧
      get_valid_killer sampleTracker ⟨"B"⟩ 5 = none ∧
      get_valid_killer_checked sampleTracker ⟨"B"⟩ 5 = Except.ok none ∧
      cleanup_checked sampleTracker 5 =
        Except.ok (cleanup_old_damage_records sampleTracker 5) ∧
      (reset_killstreak sampleTracker ⟨"B"⟩).last_damage = sampleTracker.last_damage ∧
      clear_player_data sampleTracker "B" = sampleTracker) :=
  ⟨⟨rfl, rfl, rfl, by unfold NodupKeys keysOf; decide⟩,
    unknown_identity_no_error sampleTracker ⟨"B"⟩ 5 rfl rfl rfl
      (by unfold NodupKeys keysOf; decide)⟩

/-! ### Reachable-state invariant -/

/-- One call of the mutating interface of the tracker. -/
inductive LedgerOp where
  | record (victim damager : Player) (now : ℚ)
  | kill (p : Player)
  | reset (p : Player)
  | clear (n : Name)
  | sweep (now : ℚ)

/-- Dispatch of one ledger call on the tracker state. -/
def applyOp (t : KillTracker) : LedgerOp → KillTracker
  | LedgerOp.record v a now => record_damage t v a now
  | LedgerOp.kill p => add_kill t p
  | LedgerOp.reset p => reset_killstreak t p
  | LedgerOp.clear n => clear_player_data t n
  | LedgerOp.sweep now => cleanup_old_damage_records t now

/-- Tracker reached by a call sequence on a freshly constructed tracker. -/
def runOps (combat_timeout : ℚ) (ops : List LedgerOp) : KillTracker :=
  ops.foldl applyOp (KillTracker.mk_tracker combat_timeout)

/-- All stored kill counts and killstreak values are non-negative. -/
def CountersNonneg (t : KillTracker) : Prop :=
  (∀ e ∈ t.kills, 0 ≤ e.2) ∧ (∀ e ∈ t.killstreaks, 0 ≤ e.2)

theorem countersNonneg_applyOp (t : KillTracker) (op : LedgerOp)
    (h : CountersNonneg t) : CountersNonneg (applyOp t op) := by
  obtain ⟨h1, h2⟩ := h
  cases op with
  | record v a now => exact ⟨h1, h2⟩
  | kill p =>
    constructor
    · intro e he
      simp only [applyOp, add_kill, setKey] at he
      rcases List.mem_cons.mp he with h3 | h3
      · rw [h3]
        show 0 ≤ (lookup p.name t.kills).getD 0 + 1
        have hge : 0 ≤ (lookup p.name t.kills).getD 0 := by
          cases hl : lookup p.name t.kills with
          | none => simp
          | some x =>
            simpa using h1 (p.name, x) (lookup_mem p.name x t.kills hl)
        linarith
      · exact h1 e (mem_eraseKey p.name e t.kills h3)
    · intro e he
      simp only [applyOp, add_kill, setKey] at he
      rcases List.mem_cons.mp he with h3 | h3
      · rw [h3]
        show 0 ≤ (lookup p.name t.killstreaks).getD 0 + 1
        have hge : 0 ≤ (lookup p.name t.killstreaks).getD 0 := by
          cases hl : lookup p.name t.killstreaks with
          | none => simp
          | some x =>
            simpa using h2 (p.name, x) (lookup_mem p.name x t.killstreaks hl)
        linarith
      · exact h2 e (mem_eraseKey p.name e t.killstreaks h3)
  | reset p =>
    constructor
    · exact h1
    · intro e he
      simp only [applyOp, reset_killstreak, setKey] at he
      rcases List.mem_cons.mp he with h3 | h3
      · rw [h3]
      · exact h2 e (mem_eraseKey p.name e t.killstreaks h3)
  | clear n =>
    exact ⟨fun e he => h1 e (mem_eraseKey n e t.kills he),
      fun e he => h2 e (mem_eraseKey n e t.killstreaks he)⟩
  | sweep now => exact ⟨h1, h2⟩

theorem countersNonneg_foldl (ops : List LedgerOp) (t : KillTracker)
    (h : CountersNonneg t) : CountersNonneg (ops.foldl applyOp t) := by
  induction ops generalizing t with
  | nil => exact h
  | cons op ops ih => exact ih (applyOp t op) (countersNonneg_applyOp t op h)

/-- C10: after any sequence of ledger calls on a freshly constructed tracker,
every stored kill count and killstreak value is non-negative, so `get_kills`
and `get_killstreak` always return values ≥ 0. -/
theorem counters_nonneg_reachable (combat_timeout : ℚ) (ops : List LedgerOp) :
    CountersNonneg (runOps combat_timeout ops) ∧
    (∀ p : Player, 0 ≤ get_kills (runOps combat_timeout ops) p ∧
      0 ≤ get_killstreak (runOps combat_timeout ops) p) := by
  have h : CountersNonneg (runOps combat_timeout ops) :=
    countersNonneg_foldl ops (KillTracker.mk_tracker combat_timeout)
      ⟨fun e he => absurd he (List.not_mem_nil e),
        fun e he => absurd he (List.not_mem_nil e)⟩
  refine ⟨h, ?_⟩
  intro p
  constructor
  · cases hl : lookup p.name (runOps combat_timeout ops).kills with
    | none => simp [get_kills, get_kills_run, hl]
    | some x =>
      have hx := h.1 (p.name, x) (lookup_mem p.name x _ hl)
      simpa [get_kills, get_kills_run, hl] using hx
  · cases hl : lookup p.name (runOps combat_timeout ops).killstreaks with
    | none => simp [get_killstreak, get_killstreak_run, hl]
    | some x =>
      have hx := h.2 (p.name, x) (lookup_mem p.name x _ hl)
      simpa [get_killstreak, get_killstreak_run, hl] using hx

/-- C10 witness: a concrete call sequence (a kill for A, then the death of A)
yields non-negative readings. -/
theorem counters_nonneg_reachable_witness :
    0 ≤ get_kills (runOps 10 [LedgerOp.kill ⟨"A"⟩, LedgerOp.reset ⟨"A"⟩]) ⟨"A"⟩ ∧
    0 ≤ get_killstreak (runOps 10 [LedgerOp.kill ⟨"A"⟩, LedgerOp.reset ⟨"A"⟩]) ⟨"A"⟩ :=
  (counters_nonneg_reachable 10 [LedgerOp.kill ⟨"A"⟩, LedgerOp.reset ⟨"A"⟩]).2 ⟨"A"⟩
